import Mathlib

/-!
Verification development for `scripts/extract-website-schema.py`.

The script reads a schema file, splits it into lines, removes every
top-level `model <Name> {` block whose name is in a fixed exclusion set
(tracking brace depth to find the end of a skipped block), then scrubs
RPG-related relation lines from the `CritUser` block and inserts an
explanatory comment before that block's closing brace, and finally joins
the resulting lines with newlines, writes them out, and prints the line
count.

The embedding below models lines as `String` and implements the script's
text primitives (`re.match r'^model\s+(\w+)\s*{'`, `str.count`,
`str.startswith`, `str.strip`, substring membership, `str.split('\n')`,
`'\n'.join`) directly over `String.data`.  Character classes `\s` and `\w`
and `str.strip`'s whitespace set are modelled by their ASCII parts
(schema files are ASCII); this is the only simplification.
-/

namespace ExtractWebsiteSchema

/-- ASCII part of Python's whitespace class `\s` (and of `str.strip`). -/
def isPySpace (c : Char) : Bool :=
  c = ' ' || c = '\t' || c = '\n' || c = '\r' || c = '\x0b' || c = '\x0c'

/-- ASCII part of Python's word-character class `\w`. -/
def isWordChar (c : Char) : Bool :=
  c.isAlphanum || c = '_'

/-- `re.match(r'^model\s+(\w+)\s*{', line)`: anchored at the start of the
line, the literal `model`, one or more whitespace characters, a captured
nonempty run of word characters, optional whitespace, then a left brace;
the rest of the line is unconstrained.  Returns the captured name.
(Greedy matching of the disjoint classes makes maximal-munch scanning
equivalent to the regex.) -/
def parseModelDecl (l : String) : Option String :=
  match l.data with
  | 'm' :: 'o' :: 'd' :: 'e' :: 'l' :: rest =>
    let sp := rest.takeWhile isPySpace
    let r1 := rest.dropWhile isPySpace
    if sp.isEmpty then none
    else
      let w := r1.takeWhile isWordChar
      let r2 := r1.dropWhile isWordChar
      if w.isEmpty then none
      else
        match r2.dropWhile isPySpace with
        | '\x7b' :: _ => some (String.mk w)
        | _ => none
  | _ => none

/-- The script's `exclude_models` set. -/
def excludeModels : List String :=
  ["RpgPlayer", "RpgSession", "RpgHistory", "RpgTimeline", "RpgAltHistory",
   "RpgAsset", "RpgTile", "RpgExpansion", "RpgExpansionAccess", "RpgSheet",
   "RpgBoard", "RpgThing", "RpgCreature", "RpgWorld", "RpgWorldWiki",
   "RpgWorldWikiRevision", "RpgCampaign", "CampaignMember", "RpgType",
   "RpgTable", "RpgCard", "RpgDeck", "RpgRule", "RpgEvent", "RpgGoal",
   "RpgMode", "RpgSystem", "RpgActivity", "RpgSubSystem", "RpgAttribute",
   "RpgLocation", "RpgBook", "RpgVoxel", "FoundryLicense", "FoundryInstance",
   "FoundryWorldSnapshot"]

/-- Python `line.count(c)` for a single character. -/
def countChar (c : Char) (l : String) : Nat :=
  l.data.count c

/-- State of the block-filter loop: `skip_model`, `current_model`,
`brace_count`. -/
structure FState where
  skipModel : Bool
  currentModel : Option String
  braceCount : Int
  deriving Repr, DecidableEq

/-- The state before the first line: `skip_model = False`,
`current_model = None`, `brace_count = 0`. -/
def fInit : FState := ⟨false, none, 0⟩

/-- One iteration of the block-filter loop of the script, returning the
new state and the lines appended to `output_lines` (zero or one). -/
def filterStep (s : FState) (l : String) : FState × List String :=
  match parseModelDecl l with
  | some name =>
    if name ∈ excludeModels then (⟨true, some name, 1⟩, [])
    else (⟨false, some name, 1⟩, [l])
  | none =>
    if s.skipModel then
      let b := s.braceCount + (countChar '\x7b' l : Int) - (countChar '\x7d' l : Int)
      if b ≤ 0 then (⟨false, none, b⟩, []) else (⟨true, s.currentModel, b⟩, [])
    else (s, [l])

/-- The block-filter loop run from a given state. -/
def filterAux : FState → List String → List String
  | _, [] => []
  | s, l :: ls => (filterStep s l).2 ++ filterAux (filterStep s l).1 ls

/-- `output_lines` as a function of the input lines. -/
def blockFilter (ls : List String) : List String :=
  filterAux fInit ls

/-- The filter state after processing a list of lines. -/
def stateAfter (s : FState) (ls : List String) : FState :=
  ls.foldl (fun s l => (filterStep s l).1) s

-- Regression examples for the declaration pattern and the filter.
example : parseModelDecl "model RpgPlayer \x7b" = some "RpgPlayer" := by decide
example : parseModelDecl "model  Foo\x7bxyz" = some "Foo" := by decide
example : parseModelDecl "modelFoo \x7b" = none := by decide
example : parseModelDecl " model Foo \x7b" = none := by decide
example : parseModelDecl "model Foo" = none := by decide
example : blockFilter ["model A \x7b", "  id Int", "\x7d"] =
    ["model A \x7b", "  id Int", "\x7d"] := by decide
example : blockFilter ["model RpgPlayer \x7b", "  id Int", "\x7d", "after"] =
    ["after"] := by decide
example : blockFilter ["model RpgPlayer \x7b \x7d", "next"] = [] := by decide

/-- Python `line.startswith('model CritUser')`. -/
def critStarts (l : String) : Bool :=
  "model CritUser".data.isPrefixOf l.data

/-- Python `line.strip()`: remove leading and trailing whitespace. -/
def pstrip (l : String) : String :=
  String.mk (((l.data.dropWhile isPySpace).reverse.dropWhile isPySpace).reverse)

/-- Substring membership on character lists (Python `needle in hay`). -/
def listHasInfix (n : List Char) : List Char → Bool
  | [] => n.isEmpty
  | c :: cs => n.isPrefixOf (c :: cs) || listHasInfix n cs

/-- The fragments whose presence drops a line inside the CritUser block. -/
def forbiddenFragments : List String :=
  ["ownedWorlds", "rpgPlayer", "RpgWorld", "RpgPlayer", "authoredWorldWikiPages",
   "lastEditedWorldWikiPages", "worldWikiRevisions", "RpgWorldWiki"]

/-- Python `any(x in line for x in [...])` over `forbiddenFragments`. -/
def hasForbidden (l : String) : Bool :=
  forbiddenFragments.any (fun f => listHasInfix f.data l.data)

/-- First comment line the script inserts before the CritUser closing brace. -/
def noteLine1 : String :=
  "  // NOTE: RPG-related relations (rpgPlayer, ownedWorlds, worldWiki) are now in"

/-- Second comment line the script inserts before the CritUser closing brace. -/
def noteLine2 : String :=
  "  // the separate Core Concepts database and accessed via the unified facade"

/-- One iteration of the relation-scrubber loop: the state is
`in_crit_user`, the result lists the lines appended to `final_lines`. -/
def scrubStep (b : Bool) (l : String) : Bool × List String :=
  if critStarts l then (true, [l])
  else if b && pstrip l = "\x7d" then (false, ["", noteLine1, noteLine2, l])
  else if b && hasForbidden l then (b, [])
  else (b, [l])

/-- The relation-scrubber loop run from a given `in_crit_user` state. -/
def scrubAux : Bool → List String → List String
  | _, [] => []
  | b, l :: ls => (scrubStep b l).2 ++ scrubAux (scrubStep b l).1 ls

/-- `final_lines` as a function of `output_lines`. -/
def scrub (ls : List String) : List String :=
  scrubAux false ls

/-- The whole in-memory transformation: block filter then relation
scrubber. -/
def pipeline (ls : List String) : List String :=
  scrub (blockFilter ls)

/-- Python `content.split('\n')`, written over character lists. -/
def splitNlAux (cur : List Char) : List Char → List String
  | [] => [String.mk cur.reverse]
  | c :: cs => if c = '\n' then String.mk cur.reverse :: splitNlAux [] cs
               else splitNlAux (c :: cur) cs

/-- Python `content.split('\n')`. -/
def splitNl (s : String) : List String :=
  splitNlAux [] s.data

/-- Python `'\n'.join(lines)`. -/
def joinNl : List String → String
  | [] => ""
  | [l] => l
  | l :: l2 :: ls => l ++ "\n" ++ joinNl (l2 :: ls)

/-- The whole run of the script, as a function of the result of reading
the input file (`none` models a read failure: file missing or
undecodable, in which case the exception aborts the straight-line script
before the output file is opened for writing).  The result is the text
written to `prisma/schema.prisma` and the line count printed, or `none`
when nothing is written. -/
def runScript (readResult : Option String) : Option (String × Nat) :=
  match readResult with
  | none => none
  | some content =>
    let finalLines := pipeline (splitNl content)
    some (joinNl finalLines, finalLines.length)

/-- Content of the destination file after a run, given its prior
content: an aborted run leaves the file untouched, a completed run
overwrites it. -/
def destAfterRun (prior : String) (readResult : Option String) : String :=
  match runScript readResult with
  | none => prior
  | some (written, _) => written

/-- Net brace contribution of a line: `line.count('{') - line.count('}')`. -/
def braceDelta (l : String) : Int :=
  (countChar '\x7b' l : Int) - (countChar '\x7d' l : Int)

/-- Running brace count from `b` over a list of lines. -/
def braceRun (b : Int) (ls : List String) : Int :=
  ls.foldl (fun acc l => acc + braceDelta l) b

/-- A line that the block filter recognizes as the declaration of an
excluded model. -/
def isExclDecl (l : String) : Bool :=
  match parseModelDecl l with
  | some n => decide (n ∈ excludeModels)
  | none => false

-- Regression examples for the scrubber.
example : scrub ["model CritUser \x7b", "  id String", "  rpgPlayer RpgPlayer?", "\x7d"] =
    ["model CritUser \x7b", "  id String", "", noteLine1, noteLine2, "\x7d"] := by decide
example : scrub ["model Other \x7b", "  rpgPlayer RpgPlayer?", "\x7d"] =
    ["model Other \x7b", "  rpgPlayer RpgPlayer?", "\x7d"] := by decide
example : hasForbidden noteLine1 = true := by decide
example : hasForbidden noteLine2 = false := by decide

/-! ### Basic lemmas about the block-filter loop -/

lemma filterAux_cons (s : FState) (l : String) (ls : List String) :
    filterAux s (l :: ls) = (filterStep s l).2 ++ filterAux (filterStep s l).1 ls := rfl

lemma stateAfter_cons (s : FState) (l : String) (ls : List String) :
    stateAfter s (l :: ls) = stateAfter (filterStep s l).1 ls := rfl

lemma filterAux_append (xs : List String) :
    ∀ (s : FState) (ys : List String),
      filterAux s (xs ++ ys) = filterAux s xs ++ filterAux (stateAfter s xs) ys := by
  induction xs with
  | nil => intro s ys; rfl
  | cons l xs ih =>
    intro s ys
    simp only [List.cons_append, filterAux_cons, stateAfter_cons, ih, List.append_assoc]

lemma stateAfter_append (s : FState) (xs ys : List String) :
    stateAfter s (xs ++ ys) = stateAfter (stateAfter s xs) ys := by
  simp [stateAfter, List.foldl_append]

lemma filterStep_decl (s : FState) (l n : String) (h : parseModelDecl l = some n) :
    filterStep s l =
      if n ∈ excludeModels then (⟨true, some n, 1⟩, []) else (⟨false, some n, 1⟩, [l]) := by
  simp [filterStep, h]

lemma filterStep_plain (m : Option String) (b : Int) (l : String)
    (h : parseModelDecl l = none) :
    filterStep ⟨false, m, b⟩ l = (⟨false, m, b⟩, [l]) := by
  simp [filterStep, h]

lemma filterStep_skip (m : Option String) (b : Int) (l : String)
    (h : parseModelDecl l = none) :
    filterStep ⟨true, m, b⟩ l =
      if b + braceDelta l ≤ 0 then (⟨false, none, b + braceDelta l⟩, [])
      else (⟨true, m, b + braceDelta l⟩, []) := by
  have harith : b + (countChar '\x7b' l : Int) - (countChar '\x7d' l : Int)
      = b + braceDelta l := by
    unfold braceDelta; ring
  simp [filterStep, h, harith]

/-- When not in skip mode, the output of the filter does not depend on
the remembered model name or brace count. -/
lemma filterAux_state_irrel (ls : List String) :
    ∀ (m : Option String) (b : Int) (m' : Option String) (b' : Int),
      filterAux ⟨false, m, b⟩ ls = filterAux ⟨false, m', b'⟩ ls := by
  induction ls with
  | nil => intro m b m' b'; rfl
  | cons l ls ih =>
    intro m b m' b'
    cases h : parseModelDecl l with
    | some n =>
      rw [filterAux_cons, filterAux_cons, filterStep_decl _ _ _ h, filterStep_decl _ _ _ h]
    | none =>
      rw [filterAux_cons, filterAux_cons, filterStep_plain _ _ _ h, filterStep_plain _ _ _ h]
      simp only [List.singleton_append, List.cons.injEq, true_and]
      exact ih m b m' b'

lemma braceRun_cons (b : Int) (l : String) (ls : List String) :
    braceRun b (l :: ls) = braceRun (b + braceDelta l) ls := rfl

lemma braceRun_nil (b : Int) : braceRun b [] = b := rfl

/-- Lines that do not match the declaration pattern pass through the
filter unchanged when it is not in skip mode, leaving the state as it
was. -/
lemma filterAux_plainRun (xs : List String) :
    ∀ (m : Option String) (b : Int) (rest : List String),
      (∀ l ∈ xs, parseModelDecl l = none) →
      filterAux ⟨false, m, b⟩ (xs ++ rest) = xs ++ filterAux ⟨false, m, b⟩ rest := by
  induction xs with
  | nil => intro m b rest _; rfl
  | cons l xs ih =>
    intro m b rest h
    have hl : parseModelDecl l = none := h l (by simp)
    rw [List.cons_append, filterAux_cons, filterStep_plain _ _ _ hl]
    simp only [List.singleton_append, List.cons_append, List.cons.injEq, true_and]
    exact ih m b rest (fun x hx => h x (by simp [hx]))

lemma stateAfter_plainRun (xs : List String) :
    ∀ (m : Option String) (b : Int),
      (∀ l ∈ xs, parseModelDecl l = none) →
      stateAfter ⟨false, m, b⟩ xs = ⟨false, m, b⟩ := by
  induction xs with
  | nil => intro m b _; rfl
  | cons l xs ih =>
    intro m b h
    have hl : parseModelDecl l = none := h l (by simp)
    rw [stateAfter_cons, filterStep_plain _ _ _ hl]
    exact ih m b (fun x hx => h x (by simp [hx]))

/-- In skip mode, a brace-balanced run of non-declaration lines is
dropped in its entirety and skip mode ends exactly at the closing
line. -/
lemma filterAux_skipRun (inner : List String) :
    ∀ (b : Int) (m : Option String) (closeL : String) (rest : List String),
      (∀ l ∈ inner ++ [closeL], parseModelDecl l = none) →
      (∀ k, k < inner.length → 0 < braceRun b (inner.take (k + 1))) →
      braceRun b (inner ++ [closeL]) ≤ 0 →
      filterAux ⟨true, m, b⟩ (inner ++ closeL :: rest) = filterAux ⟨false, none, 0⟩ rest := by
  induction inner with
  | nil =>
    intro b m closeL rest hnd _ hclose
    have hc : parseModelDecl closeL = none := hnd closeL (by simp)
    have hle : b + braceDelta closeL ≤ 0 := by
      simpa [braceRun_cons, braceRun_nil] using hclose
    rw [List.nil_append, filterAux_cons, filterStep_skip _ _ _ hc, if_pos hle]
    exact filterAux_state_irrel rest none _ none 0
  | cons l inner ih =>
    intro b m closeL rest hnd hpos hclose
    have hl : parseModelDecl l = none := hnd l (by simp)
    have hgt : 0 < b + braceDelta l := by
      simpa [braceRun_cons, braceRun_nil] using hpos 0 (by simp)
    rw [List.cons_append, filterAux_cons, filterStep_skip _ _ _ hl,
      if_neg (by omega)]
    simp only [List.nil_append]
    exact ih (b + braceDelta l) m closeL rest
      (fun x hx => hnd x (by simp at hx ⊢; tauto))
      (fun k hk => by simpa [braceRun_cons] using hpos (k + 1) (by simpa using Nat.succ_lt_succ hk))
      (by simpa [braceRun_cons] using hclose)

lemma stateAfter_skipRun (inner : List String) :
    ∀ (b : Int) (m : Option String) (closeL : String),
      (∀ l ∈ inner ++ [closeL], parseModelDecl l = none) →
      (∀ k, k < inner.length → 0 < braceRun b (inner.take (k + 1))) →
      braceRun b (inner ++ [closeL]) ≤ 0 →
      stateAfter ⟨true, m, b⟩ (inner ++ [closeL]) = ⟨false, none, braceRun b (inner ++ [closeL])⟩ := by
  induction inner with
  | nil =>
    intro b m closeL hnd _ hclose
    have hc : parseModelDecl closeL = none := hnd closeL (by simp)
    have hle : b + braceDelta closeL ≤ 0 := by
      simpa [braceRun_cons, braceRun_nil] using hclose
    rw [List.nil_append, stateAfter_cons, filterStep_skip _ _ _ hc, if_pos hle]
    simp [stateAfter, braceRun_cons, braceRun_nil]
  | cons l inner ih =>
    intro b m closeL hnd hpos hclose
    have hl : parseModelDecl l = none := hnd l (by simp)
    have hgt : 0 < b + braceDelta l := by
      simpa [braceRun_cons, braceRun_nil] using hpos 0 (by simp)
    rw [List.cons_append, stateAfter_cons, filterStep_skip _ _ _ hl, if_neg (by omega)]
    rw [braceRun_cons]
    exact ih (b + braceDelta l) m closeL
      (fun x hx => hnd x (by simp at hx ⊢; tauto))
      (fun k hk => by simpa [braceRun_cons] using hpos (k + 1) (by simpa using Nat.succ_lt_succ hk))
      (by simpa [braceRun_cons] using hclose)

lemma filterStep_out_sub (s : FState) (x : String) :
    (filterStep s x).2 = [] ∨ (filterStep s x).2 = [x] := by
  unfold filterStep
  cases h : parseModelDecl x <;> simp <;> split_ifs <;> simp

lemma mem_of_mem_filterAux (ls : List String) :
    ∀ (s : FState) (l : String), l ∈ filterAux s ls → l ∈ ls := by
  induction ls with
  | nil => intro s l h; simp [filterAux] at h
  | cons x ls ih =>
    intro s l h
    rw [filterAux_cons] at h
    rcases List.mem_append.mp h with h1 | h2
    · rcases filterStep_out_sub s x with hs | hs <;> rw [hs] at h1 <;> simp at h1
      simp [h1]
    · exact List.mem_cons_of_mem _ (ih _ l h2)

lemma filterStep_out_notExcl (s : FState) (x l : String) (h : l ∈ (filterStep s x).2) :
    isExclDecl l = false := by
  unfold filterStep at h
  cases hp : parseModelDecl x with
  | some n =>
    rw [hp] at h
    by_cases hx : n ∈ excludeModels
    · simp [hx] at h
    · simp [hx] at h
      subst h
      simp [isExclDecl, hp, hx]
  | none =>
    rw [hp] at h
    by_cases hs : s.skipModel
    · simp [hs] at h
      split_ifs at h <;> simp at h
    · simp [hs] at h
      subst h
      simp [isExclDecl, hp]

lemma filterAux_out_notExcl (ls : List String) :
    ∀ (s : FState) (l : String), l ∈ filterAux s ls → isExclDecl l = false := by
  induction ls with
  | nil => intro s l h; simp [filterAux] at h
  | cons x ls ih =>
    intro s l h
    rw [filterAux_cons] at h
    rcases List.mem_append.mp h with h1 | h2
    · exact filterStep_out_notExcl s x l h1
    · exact ih _ l h2

/-- A line sequence containing no excluded-model declaration passes
through the block filter unchanged. -/
lemma filterAux_of_noExcl (ls : List String) :
    ∀ (m : Option String) (b : Int),
      (∀ l ∈ ls, isExclDecl l = false) →
      filterAux ⟨false, m, b⟩ ls = ls := by
  induction ls with
  | nil => intro m b _; rfl
  | cons x ls ih =>
    intro m b h
    cases hp : parseModelDecl x with
    | some n =>
      have hx := h x (by simp)
      rw [isExclDecl, hp] at hx
      have hnx : n ∉ excludeModels := by simpa using hx
      rw [filterAux_cons, filterStep_decl _ _ _ hp, if_neg hnx]
      simp only [List.singleton_append, List.cons.injEq, true_and]
      exact ih _ _ (fun l hl => h l (by simp [hl]))
    | none =>
      rw [filterAux_cons, filterStep_plain _ _ _ hp]
      simp only [List.singleton_append, List.cons.injEq, true_and]
      exact ih _ _ (fun l hl => h l (by simp [hl]))

/-- The block filter is idempotent. -/
lemma blockFilter_blockFilter (ls : List String) :
    blockFilter (blockFilter ls) = blockFilter ls :=
  filterAux_of_noExcl _ none 0 (fun l hl => filterAux_out_notExcl ls fInit l hl)

/-! ### Basic lemmas about the scrubber loop -/

lemma scrubAux_cons (b : Bool) (l : String) (ls : List String) :
    scrubAux b (l :: ls) = (scrubStep b l).2 ++ scrubAux (scrubStep b l).1 ls := rfl

lemma scrubStep_crit (b : Bool) (l : String) (h : critStarts l = true) :
    scrubStep b l = (true, [l]) := by
  simp [scrubStep, h]

lemma scrubStep_plain (l : String) (h : critStarts l = false) :
    scrubStep false l = (false, [l]) := by
  simp [scrubStep, h]

lemma scrubStep_close (l : String) (h : critStarts l = false) (h2 : pstrip l = "\x7d") :
    scrubStep true l = (false, ["", noteLine1, noteLine2, l]) := by
  simp [scrubStep, h, h2]

lemma scrubStep_inner (l : String) (h : critStarts l = false) (h2 : ¬ pstrip l = "\x7d") :
    scrubStep true l = (true, if hasForbidden l then [] else [l]) := by
  simp [scrubStep, h, h2]
  split_ifs <;> simp

/-- With the `in_crit_user` flag off, lines that do not start with the
target-block prefix pass through the scrubber unchanged. -/
lemma scrubAux_false_run (xs : List String) :
    ∀ (rest : List String), (∀ l ∈ xs, critStarts l = false) →
      scrubAux false (xs ++ rest) = xs ++ scrubAux false rest := by
  induction xs with
  | nil => intro rest _; rfl
  | cons l xs ih =>
    intro rest h
    rw [List.cons_append, scrubAux_cons, scrubStep_plain l (h l (by simp))]
    simp only [List.singleton_append, List.cons_append, List.cons.injEq, true_and]
    exact ih rest (fun x hx => h x (by simp [hx]))

/-- With the `in_crit_user` flag on, lines that neither start with the
target-block prefix nor strip to a closing brace are kept exactly when
they contain no forbidden fragment, and the flag stays on. -/
lemma scrubAux_true_run (xs : List String) :
    ∀ (rest : List String),
      (∀ l ∈ xs, critStarts l = false ∧ ¬ pstrip l = "\x7d") →
      scrubAux true (xs ++ rest)
        = xs.filter (fun l => !hasForbidden l) ++ scrubAux true rest := by
  induction xs with
  | nil => intro rest _; rfl
  | cons l xs ih =>
    intro rest h
    obtain ⟨h1, h2⟩ := h l (by simp)
    have hrest := ih rest (fun x hx => h x (by simp [hx]))
    by_cases hf : hasForbidden l = true
    · rw [List.cons_append, scrubAux_cons, scrubStep_inner l h1 h2, if_pos hf]
      simp [List.filter_cons, hf, hrest]
    · have hf2 : hasForbidden l = false := by simpa using hf
      rw [List.cons_append, scrubAux_cons, scrubStep_inner l h1 h2, if_neg hf]
      simp [List.filter_cons, hf2, hrest]

lemma scrubStep_out_sub (b : Bool) (x : String) :
    (scrubStep b x).2 = [] ∨ (scrubStep b x).2 = [x] ∨
      (scrubStep b x).2 = ["", noteLine1, noteLine2, x] := by
  unfold scrubStep
  split_ifs <;> simp

lemma mem_of_mem_scrubAux (ls : List String) :
    ∀ (b : Bool) (l : String), l ∈ scrubAux b ls →
      l ∈ ls ∨ l = "" ∨ l = noteLine1 ∨ l = noteLine2 := by
  induction ls with
  | nil => intro b l h; simp [scrubAux] at h
  | cons x ls ih =>
    intro b l h
    rw [scrubAux_cons] at h
    rcases List.mem_append.mp h with h1 | h2
    · rcases scrubStep_out_sub b x with hs | hs | hs <;> rw [hs] at h1
      · simp at h1
      · simp at h1
        exact Or.inl (by simp [h1])
      · simp at h1
        rcases h1 with h1 | h1 | h1 | h1
        · exact Or.inr (Or.inl h1)
        · exact Or.inr (Or.inr (Or.inl h1))
        · exact Or.inr (Or.inr (Or.inr h1))
        · exact Or.inl (by simp [h1])
    · rcases ih _ l h2 with h3 | h3
      · exact Or.inl (List.mem_cons_of_mem _ h3)
      · exact Or.inr h3

/-! ### Structured documents

A well-formed schema document is a sequence of items: plain (non-block)
lines and top-level blocks, where a block is a declaration line, interior
lines, and a closing line in the sense of the brace-depth scanner. -/

/-- An item of a structured document: a plain line, or a top-level block
given by its declaration line, interior lines and closing line. -/
inductive Item where
  | plain (l : String)
  | block (decl : String) (inner : List String) (closeL : String)
  deriving Repr, DecidableEq

/-- The lines of an item. -/
def renderItem : Item → List String
  | .plain l => [l]
  | .block d i c => d :: (i ++ [c])

/-- The lines of a structured document. -/
def render (doc : List Item) : List String :=
  (doc.map renderItem).flatten

/-- Well-formedness of an item for the block filter: a plain line does
not match the declaration pattern; a block starts with a declaration
line, its interior and closing lines do not match the declaration
pattern, brace depth (from 1 after the declaration) stays positive on
interior lines, and drops to zero or below exactly at the closing
line. -/
def ItemOKFilter : Item → Prop
  | .plain l => parseModelDecl l = none
  | .block d i c =>
      (parseModelDecl d).isSome = true ∧
      (∀ l ∈ i ++ [c], parseModelDecl l = none) ∧
      (∀ k, k < i.length → 0 < braceRun 1 (i.take (k + 1))) ∧
      braceRun 1 (i ++ [c]) ≤ 0

/-- Well-formedness of an item for the relation scrubber: no interior or
closing line (and no plain line) starts with the target-block prefix,
and a block whose declaration starts with the prefix has no interior
line that strips to a lone closing brace while its closing line does. -/
def ItemOKScrub : Item → Prop
  | .plain l => critStarts l = false
  | .block d i c =>
      (∀ l ∈ i ++ [c], critStarts l = false) ∧
      (critStarts d = true → (∀ l ∈ i, ¬ pstrip l = "\x7d") ∧ pstrip c = "\x7d")

/-- Well-formedness of an item for the whole transformation. -/
def ItemOK (it : Item) : Prop :=
  ItemOKFilter it ∧ ItemOKScrub it

instance : DecidablePred ItemOKFilter := fun it =>
  match it with
  | .plain l => inferInstanceAs (Decidable (parseModelDecl l = none))
  | .block _ _ _ => inferInstanceAs (Decidable (_ ∧ _ ∧ _ ∧ _))

instance : DecidablePred ItemOKScrub := fun it =>
  match it with
  | .plain l => inferInstanceAs (Decidable (critStarts l = false))
  | .block _ _ _ => inferInstanceAs (Decidable (_ ∧ _))

instance (it : Item) : Decidable (ItemOK it) :=
  inferInstanceAs (Decidable (_ ∧ _))

/-- What the block filter leaves of an item. -/
def itemOutF : Item → List String
  | .plain l => [l]
  | .block d i c => if isExclDecl d then [] else d :: (i ++ [c])

/-- What the whole transformation leaves of an item: excluded blocks
disappear; a block whose declaration line starts with the target prefix
keeps only interior lines without forbidden fragments and receives a
blank line and the two note lines before its closing line; everything
else is untouched. -/
def itemOut : Item → List String
  | .plain l => [l]
  | .block d i c =>
      if isExclDecl d then []
      else if critStarts d then
        d :: (i.filter (fun l => !hasForbidden l) ++ "" :: noteLine1 :: noteLine2 :: [c])
      else d :: (i ++ [c])

lemma render_cons (it : Item) (doc : List Item) :
    render (it :: doc) = renderItem it ++ render doc := by
  simp [render]

/-- The block filter on a well-formed structured document, run before an
arbitrary remainder: each item contributes `itemOutF`. -/
lemma filterAux_render (doc : List Item) :
    ∀ (rest : List String) (m : Option String) (b : Int),
      (∀ it ∈ doc, ItemOKFilter it) →
      filterAux ⟨false, m, b⟩ (render doc ++ rest)
        = (doc.map itemOutF).flatten ++ filterAux ⟨false, none, 0⟩ rest := by
  induction doc with
  | nil =>
    intro rest m b _
    simp only [render, List.map_nil, List.flatten, List.nil_append]
    exact filterAux_state_irrel rest m b none 0
  | cons it doc ih =>
    intro rest m b h
    have hit : ItemOKFilter it := h it (by simp)
    have hdoc : ∀ x ∈ doc, ItemOKFilter x := fun x hx => h x (by simp [hx])
    rw [render_cons, List.append_assoc]
    cases it with
    | plain l =>
      have hl : parseModelDecl l = none := hit
      rw [show renderItem (Item.plain l) = [l] from rfl]
      rw [List.singleton_append, filterAux_cons, filterStep_plain _ _ _ hl]
      simp only [List.singleton_append, List.map_cons, List.flatten]
      rw [ih rest m b hdoc]
      simp [itemOutF]
    | block d i c =>
      obtain ⟨hsome, hnd, hpos, hclose⟩ := hit
      obtain ⟨n, hn⟩ := Option.isSome_iff_exists.mp hsome
      rw [show renderItem (Item.block d i c) = d :: (i ++ [c]) from rfl]
      rw [List.cons_append, filterAux_cons, filterStep_decl _ _ _ hn]
      by_cases hx : n ∈ excludeModels
      · rw [if_pos hx]
        simp only [List.nil_append]
        have hshape : (i ++ [c]) ++ (render doc ++ rest) = i ++ c :: (render doc ++ rest) := by
          simp
        rw [hshape, filterAux_skipRun i 1 (some n) c (render doc ++ rest) hnd hpos hclose]
        rw [ih rest none 0 hdoc]
        have hex : isExclDecl d = true := by simp [isExclDecl, hn, hx]
        simp [itemOutF, hex]
      · rw [if_neg hx]
        simp only [List.singleton_append]
        rw [show (i ++ [c]) ++ (render doc ++ rest) = (i ++ [c]) ++ (render doc ++ rest) from rfl]
        rw [filterAux_plainRun (i ++ [c]) (some n) 1 (render doc ++ rest) hnd]
        rw [ih rest (some n) 1 hdoc]
        have hex : isExclDecl d = false := by simp [isExclDecl, hn, hx]
        simp [itemOutF, hex]

/-- The block filter on a well-formed structured document. -/
lemma blockFilter_render (doc : List Item) (h : ∀ it ∈ doc, ItemOKFilter it) :
    blockFilter (render doc) = (doc.map itemOutF).flatten := by
  have := filterAux_render doc [] none 0 h
  simpa [blockFilter, fInit, filterAux] using this

/-- After a well-formed structured document, the filter is not in skip
mode. -/
lemma stateAfter_render (doc : List Item) :
    ∀ (m : Option String) (b : Int),
      (∀ it ∈ doc, ItemOKFilter it) →
      (stateAfter ⟨false, m, b⟩ (render doc)).skipModel = false := by
  induction doc with
  | nil => intro m b _; rfl
  | cons it doc ih =>
    intro m b h
    have hit : ItemOKFilter it := h it (by simp)
    have hdoc : ∀ x ∈ doc, ItemOKFilter x := fun x hx => h x (by simp [hx])
    rw [render_cons, stateAfter_append]
    cases it with
    | plain l =>
      have hl : parseModelDecl l = none := hit
      rw [show renderItem (Item.plain l) = [l] from rfl]
      rw [show stateAfter ⟨false, m, b⟩ [l] = (filterStep ⟨false, m, b⟩ l).1 from rfl]
      rw [filterStep_plain _ _ _ hl]
      exact ih m b hdoc
    | block d i c =>
      obtain ⟨hsome, hnd, hpos, hclose⟩ := hit
      obtain ⟨n, hn⟩ := Option.isSome_iff_exists.mp hsome
      rw [show renderItem (Item.block d i c) = d :: (i ++ [c]) from rfl]
      rw [stateAfter_cons, filterStep_decl _ _ _ hn]
      by_cases hx : n ∈ excludeModels
      · rw [if_pos hx]
        rw [stateAfter_skipRun i 1 (some n) c hnd hpos hclose]
        exact ih none _ hdoc
      · rw [if_neg hx]
        rw [stateAfter_plainRun (i ++ [c]) (some n) 1 hnd]
        exact ih (some n) 1 hdoc

/-- The relation scrubber on the block filter's output for a
well-formed structured document: each surviving item contributes
`itemOut`. -/
lemma scrubAux_itemOutF (doc : List Item) :
    (∀ it ∈ doc, ItemOK it) →
    scrubAux false ((doc.map itemOutF).flatten) = (doc.map itemOut).flatten := by
  induction doc with
  | nil => intro _; rfl
  | cons it doc ih =>
    intro h
    have hit : ItemOK it := h it (by simp)
    have hdoc : ∀ x ∈ doc, ItemOK x := fun x hx => h x (by simp [hx])
    simp only [List.map_cons, List.flatten_cons]
    cases it with
    | plain l =>
      have hl : critStarts l = false := hit.2
      rw [show itemOutF (Item.plain l) = [l] from rfl,
        show itemOut (Item.plain l) = [l] from rfl]
      rw [scrubAux_false_run [l] _ (by simpa using hl), ih hdoc]
    | block d i c =>
      obtain ⟨hIC, hcritimp⟩ := hit.2
      by_cases hex : isExclDecl d = true
      · rw [show itemOutF (Item.block d i c) = [] from by simp [itemOutF, hex],
          show itemOut (Item.block d i c) = [] from by simp [itemOut, hex]]
        rw [List.nil_append, List.nil_append]
        exact ih hdoc
      · have hex2 : isExclDecl d = false := by simpa using hex
        rw [show itemOutF (Item.block d i c) = d :: (i ++ [c]) from by simp [itemOutF, hex2]]
        by_cases hcd : critStarts d = true
        · obtain ⟨hinner, hcstrip⟩ := hcritimp hcd
          rw [show itemOut (Item.block d i c)
              = d :: (i.filter (fun l => !hasForbidden l) ++ "" :: noteLine1 :: noteLine2 :: [c])
              from by simp [itemOut, hex2, hcd]]
          rw [show (d :: (i ++ [c])) ++ (doc.map itemOutF).flatten
              = d :: (i ++ c :: (doc.map itemOutF).flatten) from by simp]
          rw [scrubAux_cons, scrubStep_crit false d hcd]
          rw [scrubAux_true_run i _
            (fun l hl => ⟨hIC l (by simp [hl]), hinner l hl⟩)]
          rw [scrubAux_cons, scrubStep_close c (hIC c (by simp)) hcstrip]
          rw [ih hdoc]
          simp
        · have hcd2 : critStarts d = false := by simpa using hcd
          rw [show itemOut (Item.block d i c) = d :: (i ++ [c]) from by
            simp [itemOut, hex2, hcd2]]
          rw [show (d :: (i ++ [c])) ++ (doc.map itemOutF).flatten
              = (d :: (i ++ [c])) ++ (doc.map itemOutF).flatten from rfl]
          rw [scrubAux_false_run (d :: (i ++ [c])) _ ?_]
          · rw [ih hdoc]
          · intro l hl
            rcases List.mem_cons.mp hl with h1 | h1
            · rw [h1]; exact hcd2
            · exact hIC l h1

/-- The whole transformation on a well-formed structured document. -/
lemma pipeline_render (doc : List Item) (h : ∀ it ∈ doc, ItemOK it) :
    pipeline (render doc) = (doc.map itemOut).flatten := by
  rw [pipeline, blockFilter_render doc (fun it hit => (h it hit).1)]
  exact scrubAux_itemOutF doc h

/-! ### Splitting and joining lines -/

lemma splitNlAux_of_noNl (cs : List Char) :
    ∀ (cur : List Char), (∀ ch ∈ cs, ¬ ch = '\n') →
      splitNlAux cur cs = [String.mk (cur.reverse ++ cs)] := by
  induction cs with
  | nil => intro cur _; simp [splitNlAux]
  | cons c cs ih =>
    intro cur h
    have hc : ¬ c = '\n' := h c (by simp)
    rw [splitNlAux, if_neg hc, ih (c :: cur) (fun ch hch => h ch (by simp [hch]))]
    simp

lemma splitNlAux_append_nl (xs : List Char) :
    ∀ (cur rest : List Char), (∀ ch ∈ xs, ¬ ch = '\n') →
      splitNlAux cur (xs ++ '\n' :: rest)
        = String.mk (cur.reverse ++ xs) :: splitNlAux [] rest := by
  induction xs with
  | nil =>
    intro cur rest _
    rw [List.nil_append, splitNlAux, if_pos rfl]
    simp
  | cons c xs ih =>
    intro cur rest h
    have hc : ¬ c = '\n' := h c (by simp)
    rw [List.cons_append, splitNlAux, if_neg hc,
      ih (c :: cur) rest (fun ch hch => h ch (by simp [hch]))]
    simp

lemma mem_splitNlAux_noNl (cs : List Char) :
    ∀ (cur : List Char), (∀ ch ∈ cur, ¬ ch = '\n') →
      ∀ l ∈ splitNlAux cur cs, ∀ ch ∈ l.data, ¬ ch = '\n' := by
  induction cs with
  | nil =>
    intro cur hcur l hl ch hch
    simp [splitNlAux] at hl
    rw [hl] at hch
    simp at hch
    exact hcur ch hch
  | cons c cs ih =>
    intro cur hcur l hl ch hch
    by_cases hc : c = '\n'
    · rw [splitNlAux, if_pos hc] at hl
      rcases List.mem_cons.mp hl with h1 | h1
      · rw [h1] at hch; simp at hch; exact hcur ch hch
      · exact ih [] (by simp) l h1 ch hch
    · rw [splitNlAux, if_neg hc] at hl
      refine ih (c :: cur) ?_ l hl ch hch
      intro x hx
      rcases List.mem_cons.mp hx with h1 | h1
      · rw [h1]; exact hc
      · exact hcur x h1

lemma splitNl_joinNl (fl : List String) (hne : fl ≠ [])
    (hnl : ∀ l ∈ fl, ∀ ch ∈ l.data, ¬ ch = '\n') :
    splitNl (joinNl fl) = fl := by
  induction fl with
  | nil => exact absurd rfl hne
  | cons a fl ih =>
    cases fl with
    | nil =>
      rw [joinNl, splitNl, splitNlAux_of_noNl a.data [] (hnl a (by simp))]
      simp
    | cons b fl =>
      rw [joinNl, splitNl]
      have hdata : (a ++ "\n" ++ joinNl (b :: fl)).data
          = a.data ++ '\n' :: (joinNl (b :: fl)).data := by
        simp [String.data_append]
      rw [hdata, splitNlAux_append_nl a.data [] _ (hnl a (by simp))]
      simp only [List.reverse_nil, List.nil_append]
      rw [show String.mk a.data = a from rfl]
      have := ih (by simp) (fun l hl ch hch => hnl l (by simp [hl]) ch hch)
      rw [splitNl] at this
      simp [this]

/-- Every line of the transformation's output is an input line or one of
the three inserted lines. -/
lemma pipeline_mem (xs : List String) (l : String) (h : l ∈ pipeline xs) :
    l ∈ xs ∨ l = "" ∨ l = noteLine1 ∨ l = noteLine2 := by
  rcases mem_of_mem_scrubAux _ _ _ h with h1 | h1
  · exact Or.inl (mem_of_mem_filterAux _ _ _ h1)
  · exact Or.inr h1

/-- No line of the transformation's output of a split document contains
a newline character. -/
lemma noNl_of_mem_pipeline_splitNl (content : String) (l : String)
    (h : l ∈ pipeline (splitNl content)) : ∀ ch ∈ l.data, ¬ ch = '\n' := by
  rcases pipeline_mem _ _ h with h1 | h1 | h1 | h1
  · exact mem_splitNlAux_noNl content.data [] (by simp) l h1
  · rw [h1]; decide
  · rw [h1]; decide
  · rw [h1]; decide

lemma scrubAux_false_id (xs : List String) (h : ∀ l ∈ xs, critStarts l = false) :
    scrubAux false xs = xs := by
  have h2 := scrubAux_false_run xs [] h
  rw [List.append_nil, show scrubAux false [] = [] from rfl, List.append_nil] at h2
  exact h2

/-! ### The claims -/

/-- C1: for every input document and every top-level model block whose
declared name is in the exclusion set — a declaration line matching the
pattern with an excluded name, reached with skip mode off, interior
lines on which the brace depth (starting at 1) stays positive, and a
closing line where it drops to zero or below, none of the block's
subsequent lines itself matching the declaration pattern — the block
filter removes the block in its entirety: the output equals the block
filter of the document with the whole block deleted, so no line
occurrence of that block appears anywhere in the output. -/
theorem C1_excluded_block_fully_removed
    (pre inner post : List String) (decl closeL name : String)
    (hname : parseModelDecl decl = some name)
    (hexcl : name ∈ excludeModels)
    (hpre : (stateAfter fInit pre).skipModel = false)
    (hnodecl : ∀ l ∈ inner ++ [closeL], parseModelDecl l = none)
    (hpos : ∀ k, k < inner.length → 0 < braceRun 1 (inner.take (k + 1)))
    (hclose : braceRun 1 (inner ++ [closeL]) ≤ 0) :
    blockFilter (pre ++ decl :: (inner ++ closeL :: post)) = blockFilter (pre ++ post) := by
  rw [blockFilter, blockFilter, filterAux_append, filterAux_append]
  congr 1
  cases hS : stateAfter fInit pre with
  | mk sk m b =>
    rw [hS] at hpre
    simp only at hpre
    subst hpre
    rw [filterAux_cons, filterStep_decl _ _ _ hname, if_pos hexcl]
    simp only [List.nil_append]
    rw [filterAux_skipRun inner 1 (some name) closeL post hnodecl hpos hclose]
    exact filterAux_state_irrel post none 0 m b

/-- Witness for C1 at a concrete document: the excluded `RpgPlayer`
block between blocks `A` and `B` is removed entirely. -/
theorem C1_witness :
    blockFilter (["model A \x7b", "\x7d"]
        ++ "model RpgPlayer \x7b" :: (["  id Int"] ++ "\x7d" :: ["model B \x7b", "\x7d"]))
      = blockFilter (["model A \x7b", "\x7d"] ++ ["model B \x7b", "\x7d"]) :=
  C1_excluded_block_fully_removed
    ["model A \x7b", "\x7d"] ["  id Int"] ["model B \x7b", "\x7d"]
    "model RpgPlayer \x7b" "\x7d" "RpgPlayer"
    (by decide) (by decide) (by decide) (by decide) (by decide) (by decide)

/-- C2 is false as stated: the script inserts three additional lines —
a blank line and two comment lines — before the target block's closing
line, not two.  At the concrete input `model CritUser {` followed by
`}`, the output has five lines, not the four the claim predicts. -/
theorem C2_counterexample :
    scrub ["model CritUser \x7b", "\x7d"]
      = ["model CritUser \x7b", "", noteLine1, noteLine2, "\x7d"] ∧
    (scrub ["model CritUser \x7b", "\x7d"]).length
      ≠ ["model CritUser \x7b", "\x7d"].length + 2 := by
  constructor
  · decide
  · decide

/-- C2 (amended): for every line sequence containing the target block —
a declaration line starting with `model CritUser`, interior lines that
neither start with that prefix nor strip to a lone closing brace, and
the first subsequent line stripping to `}` — with no other line starting
with the prefix, the scrubber removes every interior line containing a
forbidden fragment, and inserts exactly once, immediately before the
closing line, three additional lines: a blank line and the two
explanatory comment lines.  No retained interior line contains a
forbidden fragment. -/
theorem C2_target_block_scrubbed (pre i post : List String) (d c : String)
    (hpre : ∀ l ∈ pre, critStarts l = false)
    (hd : critStarts d = true)
    (hi : ∀ l ∈ i, critStarts l = false ∧ ¬ pstrip l = "\x7d")
    (hc1 : critStarts c = false) (hc2 : pstrip c = "\x7d")
    (hpost : ∀ l ∈ post, critStarts l = false) :
    scrub (pre ++ d :: (i ++ c :: post))
      = pre ++ d :: (i.filter (fun l => !hasForbidden l)
          ++ "" :: noteLine1 :: noteLine2 :: c :: post) ∧
    ∀ l ∈ i.filter (fun l => !hasForbidden l), hasForbidden l = false := by
  constructor
  · rw [scrub, scrubAux_false_run pre _ hpre]
    congr 1
    rw [scrubAux_cons, scrubStep_crit false d hd]
    rw [scrubAux_true_run i _ hi]
    rw [scrubAux_cons, scrubStep_close c hc1 hc2]
    rw [scrubAux_false_id post hpost]
    simp
  · intro l hl
    rw [List.mem_filter] at hl
    simpa using hl.2

/-- Witness for C2 (amended) at a concrete document with one forbidden
relation line inside the CritUser block. -/
theorem C2_witness :
    scrub (["model A \x7b", "\x7d"] ++ "model CritUser \x7b"
        :: (["  id String", "  rpgPlayer RpgPlayer?"] ++ "\x7d" :: ["tail"]))
      = ["model A \x7b", "\x7d"] ++ "model CritUser \x7b"
        :: (["  id String", "  rpgPlayer RpgPlayer?"].filter (fun l => !hasForbidden l)
            ++ "" :: noteLine1 :: noteLine2 :: "\x7d" :: ["tail"]) ∧
    ∀ l ∈ ["  id String", "  rpgPlayer RpgPlayer?"].filter (fun l => !hasForbidden l),
      hasForbidden l = false :=
  C2_target_block_scrubbed ["model A \x7b", "\x7d"]
    ["  id String", "  rpgPlayer RpgPlayer?"] ["tail"] "model CritUser \x7b" "\x7d"
    (by decide) (by decide) (by decide) (by decide) (by decide) (by decide)

/-- C3 is false as stated: a block named `CritUserProfile` is neither in
the exclusion set nor named `CritUser`, yet its declaration line starts
with `model CritUser`, so the scrubber enters it and inserts the three
note lines — it is not byte-identical in the output. -/
theorem C3_counterexample :
    pipeline ["model CritUserProfile \x7b", "\x7d"]
      ≠ ["model CritUserProfile \x7b", "\x7d"] := by
  decide

/-- C3 (amended): for every well-formed structured input document, the
transformation maps each item independently and in order: every
top-level block whose declaration is not an excluded-model declaration
and does not start with the prefix `model CritUser` appears
byte-identical in the output (`itemOut` is `renderItem` on such blocks),
in the same relative order, as do all plain lines; only excluded blocks
(dropped) and blocks whose declaration line starts with `model CritUser`
(scrubbed) are changed. -/
theorem C3_retained_blocks_byte_identical (doc : List Item)
    (hOK : ∀ it ∈ doc, ItemOK it) :
    pipeline (render doc) = (doc.map itemOut).flatten ∧
    ∀ d i c, isExclDecl d = false → critStarts d = false →
      itemOut (Item.block d i c) = renderItem (Item.block d i c) := by
  refine ⟨pipeline_render doc hOK, ?_⟩
  intro d i c h1 h2
  simp [itemOut, renderItem, h1, h2]

/-- Witness for C3 (amended) on a document with a plain line, a retained
block, an excluded block and the target block. -/
theorem C3_witness :
    pipeline (render [Item.plain "generator client", Item.block "model A \x7b" ["  id Int"] "\x7d",
        Item.block "model RpgPlayer \x7b" ["  x Int"] "\x7d",
        Item.block "model CritUser \x7b" ["  rpgPlayer RpgPlayer?"] "\x7d"])
      = (([Item.plain "generator client", Item.block "model A \x7b" ["  id Int"] "\x7d",
          Item.block "model RpgPlayer \x7b" ["  x Int"] "\x7d",
          Item.block "model CritUser \x7b" ["  rpgPlayer RpgPlayer?"] "\x7d"]).map itemOut).flatten :=
  (C3_retained_blocks_byte_identical _ (by decide)).1

/-- C4 is false as stated: the transformation is not idempotent.  On the
two-line document `model CritUser {`, `}`, the first run inserts the
blank line and the two comment lines; the first comment line itself
contains the forbidden fragments `rpgPlayer` and `ownedWorlds`, so a
second run drops it and inserts a fresh blank-plus-comments triple —
the second output differs from the first. -/
theorem C4_counterexample :
    pipeline (pipeline ["model CritUser \x7b", "\x7d"])
      ≠ pipeline ["model CritUser \x7b", "\x7d"] := by
  decide

/-- C4 (amended): the block filter alone is idempotent on every input,
and the whole transformation is idempotent on every input document in
which no line starts with the prefix `model CritUser` (so the scrubber
never activates). -/
theorem C4_idempotence (ls : List String) :
    blockFilter (blockFilter ls) = blockFilter ls ∧
    ((∀ l ∈ ls, critStarts l = false) → pipeline (pipeline ls) = pipeline ls) := by
  refine ⟨blockFilter_blockFilter ls, fun h => ?_⟩
  have hf : ∀ l ∈ blockFilter ls, critStarts l = false :=
    fun l hl => h l (mem_of_mem_filterAux _ _ _ hl)
  have hid : scrub (blockFilter ls) = blockFilter ls := scrubAux_false_id _ hf
  calc pipeline (pipeline ls)
      = scrub (blockFilter (scrub (blockFilter ls))) := rfl
    _ = scrub (blockFilter (blockFilter ls)) := by rw [hid]
    _ = scrub (blockFilter ls) := by rw [blockFilter_blockFilter]
    _ = pipeline ls := rfl

/-- Witness for C4 (amended) on a document without the target prefix. -/
theorem C4_witness :
    pipeline (pipeline ["hello", "model A \x7b", "\x7d"])
      = pipeline ["hello", "model A \x7b", "\x7d"] :=
  (C4_idempotence _).2 (by decide)

/-- C5 is false as stated: on `model RpgPlayer { }` the trailing closing
brace of the single-line excluded block is not counted (the declaration
branch sets the depth to 1 and moves on), so skip mode persists and the
immediately following line `kept Int` is dropped, not emitted. -/
theorem C5_counterexample :
    blockFilter ["model RpgPlayer \x7b \x7d", "kept Int"] = [] ∧
    blockFilter ["model RpgPlayer \x7b \x7d", "kept Int"] ≠ ["kept Int"] := by
  constructor
  · decide
  · decide

/-- C5 (amended): on an excluded block whose declaration and closing
brace share one line, the block filter drops that line and stays in skip
mode with brace depth 1 — braces after the declaration's opening brace
are ignored — so the following lines are processed in skip mode (dropped
until the depth falls to zero or below or a new declaration resets the
scanner), rather than being emitted unchanged. -/
theorem C5_single_line_block_keeps_skipping (post : List String) :
    blockFilter ("model RpgPlayer \x7b \x7d" :: post)
      = filterAux ⟨true, some "RpgPlayer", 1⟩ post := by
  rw [blockFilter, filterAux_cons, filterStep_decl _ _ "RpgPlayer" (by decide),
    if_pos (by decide)]
  rfl

/-- C6 is false as stated: on the truncated document consisting of the
single line `model RpgPlayer {`, the block filter ends with skip mode
still active. -/
theorem C6_counterexample :
    (stateAfter fInit ["model RpgPlayer \x7b"]).skipModel = true := by
  decide

/-- C6 (amended): on every well-formed structured input document (each
block's braces balance exactly at its closing line and no interior line
matches the declaration pattern), the block filter ends with skip mode
inactive; on truncated input it can instead end mid-skip, with the
remaining lines silently dropped (the counterexample). -/
theorem C6_skip_inactive_at_eof (doc : List Item)
    (h : ∀ it ∈ doc, ItemOKFilter it) :
    (stateAfter fInit (render doc)).skipModel = false :=
  stateAfter_render doc none 0 h

/-- Witness for C6 (amended): after a complete excluded block, skip mode
is off. -/
theorem C6_witness :
    (stateAfter fInit (render [Item.block "model RpgPlayer \x7b" [] "\x7d"])).skipModel
      = false :=
  C6_skip_inactive_at_eof [Item.block "model RpgPlayer \x7b" [] "\x7d"] (by decide)

/-- C7: the script writes the final lines joined with newline separators
and prints `len(final_lines)`; for every input whose final line sequence
is non-empty, the written text consists of exactly that many lines
(splitting the written text on newlines recovers exactly the final line
sequence), so the printed count equals the number of lines written. -/
theorem C7_line_count_matches (content : String)
    (h : pipeline (splitNl content) ≠ []) :
    runScript (some content)
      = some (joinNl (pipeline (splitNl content)), (pipeline (splitNl content)).length) ∧
    (splitNl (joinNl (pipeline (splitNl content)))).length
      = (pipeline (splitNl content)).length := by
  refine ⟨rfl, ?_⟩
  rw [splitNl_joinNl _ h (fun l hl => noNl_of_mem_pipeline_splitNl content l hl)]

/-- Witness for C7 at a concrete one-line input. -/
theorem C7_witness :
    pipeline (splitNl "hello") ≠ [] ∧
    (splitNl (joinNl (pipeline (splitNl "hello")))).length
      = (pipeline (splitNl "hello")).length :=
  ⟨by decide, (C7_line_count_matches "hello" (by decide)).2⟩

/-- C8: if reading the input file fails (modelled by a `none` read
result: file not found or undecodable), the straight-line script aborts
before the output file is opened, so nothing is written and the
destination file keeps its prior content. -/
theorem C8_read_failure_no_write (prior : String) :
    runScript none = none ∧ destAfterRun prior none = prior :=
  ⟨rfl, rfl⟩

/-- C9: the declaration-pattern check precedes the skip check: on any
line matching `model <Name> {`, whatever the current state — in
particular mid-skip with unbalanced braces — the scanner resets to brace
depth 1 with the new name; a non-excluded declaration ends skip mode and
is emitted, an excluded one (re)starts skip mode and is dropped. -/
theorem C9_declaration_precedes_skip (s : FState) (l n : String)
    (h : parseModelDecl l = some n) :
    filterStep s l =
      if n ∈ excludeModels then (⟨true, some n, 1⟩, [])
      else (⟨false, some n, 1⟩, [l]) :=
  filterStep_decl s l n h

/-- Witness for C9: a non-excluded declaration encountered mid-skip
(depth 3) ends the skip and is emitted. -/
theorem C9_witness :
    filterStep ⟨true, some "RpgPlayer", 3⟩ "model Good \x7b"
      = (⟨false, some "Good", 1⟩, ["model Good \x7b"]) := by
  rw [C9_declaration_precedes_skip _ _ "Good" (by decide)]
  decide

/-- C10: the scrubber identifies the target block by a raw prefix test —
any line starting with the literal `model CritUser` (including the
declaration of the differently named `model CritUserProfile {`) switches
scrubbing mode on and is kept — and, in that mode, any line that neither
starts with the prefix nor strips to a lone closing brace and contains a
forbidden fragment anywhere as a substring (comments included) is
dropped. -/
theorem C10_raw_prefix_and_substring_scrub :
    (∀ (b : Bool) (l : String), critStarts l = true → scrubStep b l = (true, [l])) ∧
    (∀ l : String, critStarts l = false → ¬ pstrip l = "\x7d" → hasForbidden l = true →
      scrubStep true l = (true, [])) ∧
    critStarts "model CritUserProfile \x7b" = true := by
  refine ⟨fun b l h => scrubStep_crit b l h, fun l h1 h2 h3 => ?_, by decide⟩
  rw [scrubStep_inner l h1 h2, if_pos h3]

/-- Witness for C10: the `CritUserProfile` declaration enters scrub mode,
and a comment line containing `rpgPlayer` is dropped in scrub mode. -/
theorem C10_witness :
    scrubStep false "model CritUserProfile \x7b"
      = (true, ["model CritUserProfile \x7b"]) ∧
    scrubStep true "  // comment mentioning rpgPlayer" = (true, []) :=
  ⟨C10_raw_prefix_and_substring_scrub.1 false _ (by decide),
   C10_raw_prefix_and_substring_scrub.2.1 _ (by decide) (by decide) (by decide)⟩

end ExtractWebsiteSchema
